import Mathlib

/-!
Shallow embedding of `backend/app.py`, a FastAPI service exposing GPT-2
model internals. External library calls (HuggingFace tokenizer/model,
TransformerLens, sklearn PCA, torch sampling) are modelled as oracle
functions returning `Except Unit _` (an `.error ()` models a raised
exception inside the handler body). Python floats are modelled as `ℚ`,
token ids as `Int`. Each handler is translated with its exact control
flow: the `None`-model guard, the broad `try/except` returning an
empty-shaped default, and all response shaping done in Python.
-/

/-- Request body of `/tokenize`, `/attention`, `/residual_stream`,
`/embeddings_all` (pydantic `TextInput`). -/
structure TextInput where
  text : String
deriving DecidableEq, Repr

/-- Request body of `/embeddings` (pydantic `EmbeddingInput`, `layer` defaults to 0). -/
structure EmbeddingInput where
  text : String
  layer : Int
deriving DecidableEq, Repr

/-- Request body of `/next_token` (pydantic `NextTokenInput`, `temperature` defaults to 1). -/
structure NextTokenInput where
  text : String
  temperature : ℚ
deriving DecidableEq, Repr

/-! ### /tokenize -/

/-- Raw results of the tokenizer library calls in `tokenize_text`:
`inputs["input_ids"][0].tolist()`, `tokenizer.convert_ids_to_tokens(...)`,
`inputs["attention_mask"].tolist()`. -/
structure TokRaw where
  input_ids : List Int
  raw_tokens : List String
  attention_mask : List (List Int)
deriving DecidableEq, Repr

/-- JSON response of `/tokenize`. -/
structure TokenizeResponse where
  input_ids : List Int
  tokens : List String
  attention_mask : List (List Int)
deriving DecidableEq, Repr

/-- Token cleaning in `tokenize_text`: a leading byte-level space marker
`Ġ` is replaced by a literal leading space. -/
def cleanToken (t : String) : String :=
  if t.startsWith "Ġ" then " " ++ t.drop 1 else t

/-- The cleaning/deduplication loop of `tokenize_text`: iterate over the raw
tokens, clean each one, and append it to the output only if it was not seen
before (`seen` models the `seen_tokens` set, which always holds exactly the
cleaned tokens emitted so far). -/
def dedupClean : List String → List String → List String
  | [], _ => []
  | t :: rest, seen =>
    let c := cleanToken t
    if c ∈ seen then dedupClean rest seen
    else c :: dedupClean rest (c :: seen)

/-- The same loop without the cleaning step, for reasoning. -/
def dedupAux : List String → List String → List String
  | [], _ => []
  | t :: rest, seen =>
    if t ∈ seen then dedupAux rest seen
    else t :: dedupAux rest (t :: seen)

/-- Success-path response of `tokenize_text`. -/
def mkTokenizeSuccess (r : TokRaw) : TokenizeResponse :=
  ⟨r.input_ids, dedupClean r.raw_tokens [], r.attention_mask⟩

/-- Handler of `POST /tokenize`. `tokenizer = none` models the startup
load failure; an `.error ()` from the oracle models an exception in the
body, caught by the broad `except` clause. -/
def tokenize_text (tokenizer : Option (String → Except Unit TokRaw))
    (input : TextInput) : TokenizeResponse :=
  match tokenizer with
  | none => ⟨[], [], []⟩
  | some tok =>
    match tok input.text with
    | .error _ => ⟨[], [], []⟩
    | .ok r => mkTokenizeSuccess r

/-- Modelled from the spec: first-seen deduplication — keep every string at
its first occurrence and erase all later duplicates of it. Used as the
specification-side description that the `tokenize_text` loop is compared
against. -/
def dedupFirst : List String → List String
  | [] => []
  | x :: xs => x :: dedupFirst (xs.filter (fun y => decide (y ≠ x)))
termination_by l => l.length
decreasing_by
  simp only [List.length_cons]
  exact Nat.lt_succ_of_le (List.length_filter_le _ _)

theorem dedupFirst_nil : dedupFirst [] = [] := by
  rw [dedupFirst.eq_def]

theorem dedupFirst_cons (x : String) (xs : List String) :
    dedupFirst (x :: xs) = x :: dedupFirst (xs.filter (fun y => decide (y ≠ x))) := by
  rw [dedupFirst.eq_def]

theorem dedupClean_eq_dedupAux (l : List String) :
    ∀ seen, dedupClean l seen = dedupAux (l.map cleanToken) seen := by
  induction l with
  | nil => intro seen; rfl
  | cons t rest ih =>
    intro seen
    simp only [dedupClean, dedupAux, List.map_cons, ih]

theorem dedupAux_eq_dedupFirst (l : List String) :
    ∀ seen, dedupAux l seen = dedupFirst (l.filter (fun a => decide (a ∉ seen))) := by
  induction l with
  | nil => intro seen; simp [dedupAux, dedupFirst_nil]
  | cons x xs ih =>
    intro seen
    by_cases hx : x ∈ seen
    · simp [dedupAux, hx, ih, List.filter_cons]
    · simp only [dedupAux, if_neg hx, List.filter_cons]
      have hd : (decide (x ∉ seen)) = true := by simp [hx]
      rw [hd, if_pos rfl, dedupFirst_cons, ih (x :: seen)]
      congr 1
      rw [List.filter_filter]
      congr 1
      refine List.filter_congr fun a _ => ?_
      by_cases hax : a = x
      · subst hax; simp [hx]
      · by_cases has : a ∈ seen <;> simp [hax, has]

theorem dedupClean_eq_dedupFirst (l : List String) :
    dedupClean l [] = dedupFirst (l.map cleanToken) := by
  rw [dedupClean_eq_dedupAux, dedupAux_eq_dedupFirst]
  congr 1
  simp

theorem mem_dedupFirst : ∀ (n : Nat) (l : List String), l.length ≤ n →
    ∀ a, (a ∈ dedupFirst l ↔ a ∈ l) := by
  intro n
  induction n with
  | zero =>
    intro l hl a
    rw [Nat.le_zero, List.length_eq_zero] at hl
    subst hl; simp [dedupFirst_nil]
  | succ n ih =>
    intro l hl a
    match l with
    | [] => simp [dedupFirst_nil]
    | x :: xs =>
      rw [dedupFirst_cons]
      have hlen : (xs.filter (fun y => decide (y ≠ x))).length ≤ n := by
        have h1 := List.length_filter_le (fun y => decide (y ≠ x)) xs
        simp only [List.length_cons, Nat.succ_le_succ_iff] at hl
        omega
      constructor
      · intro h
        rcases List.mem_cons.mp h with h | h
        · simp [h]
        · have := (ih _ hlen a).mp h
          rcases List.mem_filter.mp this with ⟨hmem, _⟩
          exact List.mem_cons_of_mem _ hmem
      · intro h
        rcases List.mem_cons.mp h with h | h
        · exact h ▸ List.mem_cons_self _ _
        · by_cases hax : a = x
          · exact hax ▸ List.mem_cons_self _ _
          · refine List.mem_cons_of_mem _ ((ih _ hlen a).mpr ?_)
            exact List.mem_filter.mpr ⟨h, by simp [hax]⟩

theorem nodup_dedupFirst : ∀ (n : Nat) (l : List String), l.length ≤ n →
    (dedupFirst l).Nodup := by
  intro n
  induction n with
  | zero =>
    intro l hl
    rw [Nat.le_zero, List.length_eq_zero] at hl
    subst hl
    rw [dedupFirst_nil]; exact List.nodup_nil
  | succ n ih =>
    intro l hl
    match l with
    | [] => rw [dedupFirst_nil]; exact List.nodup_nil
    | x :: xs =>
      rw [dedupFirst_cons]
      have hlen : (xs.filter (fun y => decide (y ≠ x))).length ≤ n := by
        have h1 := List.length_filter_le (fun y => decide (y ≠ x)) xs
        simp only [List.length_cons, Nat.succ_le_succ_iff] at hl
        omega
      refine List.nodup_cons.mpr ⟨?_, ih _ hlen⟩
      intro hmem
      have := (mem_dedupFirst n _ hlen x).mp hmem
      rcases List.mem_filter.mp this with ⟨_, hne⟩
      simp at hne

theorem dedupFirst_sublist : ∀ (n : Nat) (l : List String), l.length ≤ n →
    (dedupFirst l).Sublist l := by
  intro n
  induction n with
  | zero =>
    intro l hl
    rw [Nat.le_zero, List.length_eq_zero] at hl
    subst hl
    rw [dedupFirst_nil]
  | succ n ih =>
    intro l hl
    match l with
    | [] =>
      rw [dedupFirst_nil]
    | x :: xs =>
      rw [dedupFirst_cons]
      have hlen : (xs.filter (fun y => decide (y ≠ x))).length ≤ n := by
        have h1 := List.length_filter_le (fun y => decide (y ≠ x)) xs
        simp only [List.length_cons, Nat.succ_le_succ_iff] at hl
        omega
      exact List.Sublist.cons₂ x
        ((ih _ hlen).trans (List.filter_sublist xs))

theorem dedupFirst_length_le (l : List String) :
    (dedupFirst l).length ≤ l.length :=
  (dedupFirst_sublist l.length l le_rfl).length_le

theorem dedupFirst_length_lt (l : List String) (h : ¬ l.Nodup) :
    (dedupFirst l).length < l.length := by
  rcases Nat.lt_or_ge (dedupFirst l).length l.length with hlt | hge
  · exact hlt
  · exfalso
    have heq : dedupFirst l = l :=
      (dedupFirst_sublist l.length l le_rfl).eq_of_length
        (le_antisymm (dedupFirst_length_le l) hge)
    exact h (heq ▸ nodup_dedupFirst l.length l le_rfl)

/-! ### /next_token -/

/-- Raw results of the library pipeline in `next_token_prediction`, as a
function of the scaled logits (i.e. of the effective temperature): the
`torch.topk` token strings (decoded), the softmax probabilities over the
top-10 slice, the top-k vocabulary indices, and the index drawn by
`torch.multinomial`. -/
structure NTRaw where
  top_tokens : List String
  top_probs : List ℚ
  top_indices : List Int
  sampled_idx : Nat
deriving DecidableEq, Repr

/-- One entry of the returned `probs` list: `{"token": token.strip(), "prob": prob}`. -/
structure ProbEntry where
  token : String
  prob : ℚ
deriving DecidableEq, Repr

/-- JSON response of `/next_token`. -/
structure NextTokenResponse where
  token : String
  token_id : Int
  probability : ℚ
  probs : List ProbEntry
deriving DecidableEq, Repr

/-- The fixed empty-shaped default of `/next_token`:
`{"token": "", "token_id": -1, "probability": 0.0, "probs": []}`. -/
def defaultNextToken : NextTokenResponse := ⟨"", -1, 0, []⟩

/-- `temperature = max(input.temperature, 1e-6)` in `next_token_prediction`. -/
def effectiveTemperature (t : ℚ) : ℚ := max t (1 / 1000000)

/-- Success-path response shaping of `next_token_prediction`: build the
top-10 list by zipping tokens with probabilities, then index all three
top-k lists at the sampled position. An out-of-range index would raise
`IndexError` in Python (caught by the handler), modelled by `none`. -/
def mkNextTokenSuccess (r : NTRaw) : Option NextTokenResponse :=
  let probs_list := (r.top_tokens.zip r.top_probs).map (fun p => ⟨p.1.trim, p.2⟩)
  match r.top_tokens[r.sampled_idx]?, r.top_indices[r.sampled_idx]?,
      r.top_probs[r.sampled_idx]? with
  | some tok, some tid, some p => some ⟨tok.trim, tid, p, probs_list⟩
  | _, _, _ => none

/-- Handler of `POST /next_token`. The oracle takes the input text and the
effective (floored) temperature, reflecting that the scaled logits
`next_token_logits / temperature` feed everything downstream. -/
def next_token_prediction (env : Option (String → ℚ → Except Unit NTRaw))
    (input : NextTokenInput) : NextTokenResponse :=
  match env with
  | none => defaultNextToken
  | some f =>
    match f input.text (effectiveTemperature input.temperature) with
    | .error _ => defaultNextToken
    | .ok r => (mkNextTokenSuccess r).getD defaultNextToken

/-! ### /residual_stream -/

/-- Raw results of the TransformerLens calls in `get_residual_stream`:
`to_str_tokens`, the per-token per-checkpoint norms computed from the
cache, and `tl_model.cfg.n_layers`. -/
structure ResidRaw where
  tokens : List String
  layer_values : List (List ℚ)
  n_layers : Nat
deriving DecidableEq, Repr

/-- JSON response of `/residual_stream`. -/
structure ResidualResponse where
  layer_values : List (List ℚ)
  tokens : List String
  num_layers : Nat
deriving DecidableEq, Repr

/-- The end-of-text sentinel stripped by `get_residual_stream`. -/
def eotToken : String := "<|endoftext|>"

/-- `token.replace("Ġ", " ")`: since the pattern is the single character
`Ġ`, Python's `str.replace` is a character-wise map. -/
def replaceG (t : String) : String :=
  String.mk (t.data.map (fun c => if c = 'Ġ' then ' ' else c))

/-- The cleaning loop of `get_residual_stream`: iterate over
`zip(tokens, layer_values)` and keep (cleaned token, norms row) for every
token not in `["<|endoftext|>"]`. -/
def stripEot : List String → List (List ℚ) → List String × List (List ℚ)
  | [], _ => ([], [])
  | _ :: _, [] => ([], [])
  | t :: ts, v :: vs =>
    let r := stripEot ts vs
    if t ∈ [eotToken] then r else (replaceG t :: r.1, v :: r.2)

/-- Success-path response of `get_residual_stream`. -/
def mkResidualSuccess (r : ResidRaw) : ResidualResponse :=
  let p := stripEot r.tokens r.layer_values
  ⟨p.2, p.1, r.n_layers + 1⟩

/-- Handler of `POST /residual_stream`. -/
def get_residual_stream (env : Option (String → Except Unit ResidRaw))
    (input : TextInput) : ResidualResponse :=
  match env with
  | none => ⟨[], [], 0⟩
  | some f =>
    match f input.text with
    | .error _ => ⟨[], [], 0⟩
    | .ok r => mkResidualSuccess r

/-! ### /attention -/

/-- JSON response of `/attention`; each layer entry is a
`[heads, seq_len, seq_len]` tensor as nested lists. -/
structure AttentionResponse where
  num_layers : Nat
  attentions : List (List (List (List ℚ)))
deriving DecidableEq, Repr

/-- Success-path response of `get_attention`: `num_layers` is the length of
the converted attention list. -/
def mkAttentionSuccess (a : List (List (List (List ℚ)))) : AttentionResponse :=
  ⟨a.length, a⟩

/-- Handler of `POST /attention`. The oracle returns the already-squeezed
per-layer attention tensors (`[]` models a model without attentions). -/
def get_attention (env : Option (String → Except Unit (List (List (List (List ℚ))))))
    (input : TextInput) : AttentionResponse :=
  match env with
  | none => ⟨0, []⟩
  | some f =>
    match f input.text with
    | .error _ => ⟨0, []⟩
    | .ok a => mkAttentionSuccess a

/-! ### /embeddings -/

/-- Hidden states as returned by the forward pass: a list of layers, each a
list of per-token vectors. -/
def HiddenStates : Type := List (List (List ℚ))

/-- JSON response of `/embeddings`. The degraded paths return only
`{"embeddings": [], "layer": ...}`; the success path additionally carries
`num_tokens` and `embedding_dim`, modelled by the `extra` field. -/
structure EmbeddingsResponse where
  embeddings : List (List ℚ)
  layer : Int
  extra : Option (Nat × Nat)
deriving DecidableEq, Repr

/-- The clamp in `get_embeddings`:
`layer_idx = max(0, min(input.layer, len(hidden_states) - 1))`. -/
def clampLayer (layer : Int) (numStates : Nat) : Int :=
  max 0 (min layer ((numStates : Int) - 1))

/-- The part of `get_embeddings` after the forward pass succeeded with
hidden states `hs`: return the degraded shape if there are none, otherwise
index the clamped layer and shape the success response. -/
def mkEmbeddingsResult (input : EmbeddingInput) (hs : List (List (List ℚ))) :
    EmbeddingsResponse :=
  if hs = [] then ⟨[], input.layer, none⟩
  else
    let layer_idx := clampLayer input.layer hs.length
    match hs[layer_idx.toNat]? with
    | none => ⟨[], input.layer, none⟩
    | some layer_embeddings =>
      ⟨layer_embeddings, layer_idx,
        some (layer_embeddings.length, (layer_embeddings.headD []).length)⟩

/-- Handler of `POST /embeddings`. -/
def get_embeddings (env : Option (String → Except Unit (List (List (List ℚ)))))
    (input : EmbeddingInput) : EmbeddingsResponse :=
  match env with
  | none => ⟨[], input.layer, none⟩
  | some f =>
    match f input.text with
    | .error _ => ⟨[], input.layer, none⟩
    | .ok hs => mkEmbeddingsResult input hs

/-! ### /embeddings_all -/

/-- JSON response of `/embeddings_all`. -/
structure AllEmbeddingsResponse where
  num_layers : Nat
  hidden_states : List (List (List ℚ))
  embeddings3d : List (List ℚ)
deriving DecidableEq, Repr

/-- `np.array(m).shape[1]` on a non-empty list of rows: defined (as the
common row length) only when the rows are uniform; a ragged input makes
numpy build a 1-D object array, whose `shape[1]` raises `IndexError`. -/
def shape1 (m : List (List ℚ)) : Except Unit Nat :=
  match m with
  | [] => .error ()
  | r :: rs => if rs.all (fun row => row.length == r.length) then .ok r.length else .error ()

/-- The `embeddings3d` block of `get_all_embeddings`: guarded by
`hidden_states_data` being non-empty and its last layer having tokens, then
the inner `try`: take `shape[1]`, run PCA only when it is at least 3, and
fall back to `[]` on any inner exception. -/
def pcaBlock (pca : List (List ℚ) → Except Unit (List (List ℚ)))
    (hs : List (List (List ℚ))) : List (List ℚ) :=
  match hs.getLast? with
  | none => []
  | some last =>
    if last.length > 0 then
      match shape1 last with
      | .error _ => []
      | .ok d =>
        if d ≥ 3 then
          match pca last with
          | .error _ => []
          | .ok m => m
        else []
    else []

/-- Success-path response of `get_all_embeddings`. -/
def mkAllEmbeddingsSuccess (pca : List (List ℚ) → Except Unit (List (List ℚ)))
    (hs : List (List (List ℚ))) : AllEmbeddingsResponse :=
  ⟨hs.length, hs, pcaBlock pca hs⟩

/-- Handler of `POST /embeddings_all`. `pca` models
`PCA(n_components=3).fit_transform`. -/
def get_all_embeddings (env : Option (String → Except Unit (List (List (List ℚ)))))
    (pca : List (List ℚ) → Except Unit (List (List ℚ)))
    (input : TextInput) : AllEmbeddingsResponse :=
  match env with
  | none => ⟨0, [], []⟩
  | some f =>
    match f input.text with
    | .error _ => ⟨0, [], []⟩
    | .ok hs => mkAllEmbeddingsSuccess pca hs

/-- Handler of `GET /health`: a static payload. -/
def health_check : String × String := ("ok", "gpt2")

/-! ### Concrete library stand-ins used by witnesses -/

/-- A concrete tokenizer oracle with a repeated cleaned token
(`"a"` occurs twice after cleaning). -/
def demoTok : String → Except Unit TokRaw :=
  fun _ => .ok ⟨[64, 275, 64], ["a", "Ġb", "a"], [[1, 1, 1]]⟩

/-- A tokenizer oracle that always raises. -/
def throwTok : String → Except Unit TokRaw := fun _ => .error ()

/-! ### Claim theorems -/

/-- C4: on every successful `/tokenize` response, the `tokens` list is the
first-seen deduplication of the cleaned raw tokens: it equals `dedupFirst`
of the cleaned sequence, has no duplicates, contains exactly the cleaned
strings, and is a subsequence of the cleaned sequence (each string kept at
its first occurrence). -/
theorem tokenize_tokens_dedup_first_seen
    (f : String → Except Unit TokRaw) (input : TextInput) (r : TokRaw)
    (hok : f input.text = .ok r) :
    (tokenize_text (some f) input).tokens = dedupFirst (r.raw_tokens.map cleanToken) ∧
      (tokenize_text (some f) input).tokens.Nodup ∧
      (∀ s, s ∈ (tokenize_text (some f) input).tokens ↔ s ∈ r.raw_tokens.map cleanToken) ∧
      (tokenize_text (some f) input).tokens.Sublist (r.raw_tokens.map cleanToken) := by
  have hres : tokenize_text (some f) input = mkTokenizeSuccess r := by
    simp [tokenize_text, hok]
  rw [hres]
  have htk : (mkTokenizeSuccess r).tokens = dedupFirst (r.raw_tokens.map cleanToken) := by
    simp [mkTokenizeSuccess, dedupClean_eq_dedupFirst]
  rw [htk]
  exact ⟨rfl, nodup_dedupFirst _ _ le_rfl,
    fun s => mem_dedupFirst _ _ le_rfl s, dedupFirst_sublist _ _ le_rfl⟩

/-- Witness for C4 at a concrete tokenizer whose raw tokens are
`["a", "Ġb", "a"]`. -/
theorem tokenize_tokens_dedup_first_seen_witness :
    (demoTok "ab a" = .ok ⟨[64, 275, 64], ["a", "Ġb", "a"], [[1, 1, 1]]⟩) ∧
      ((tokenize_text (some demoTok) ⟨"ab a"⟩).tokens =
          dedupFirst (List.map cleanToken ["a", "Ġb", "a"]) ∧
        (tokenize_text (some demoTok) ⟨"ab a"⟩).tokens.Nodup ∧
        (∀ s, s ∈ (tokenize_text (some demoTok) ⟨"ab a"⟩).tokens ↔
          s ∈ List.map cleanToken ["a", "Ġb", "a"]) ∧
        (tokenize_text (some demoTok) ⟨"ab a"⟩).tokens.Sublist
          (List.map cleanToken ["a", "Ġb", "a"])) :=
  ⟨rfl, tokenize_tokens_dedup_first_seen demoTok ⟨"ab a"⟩ _ rfl⟩

/-- C6: `tokenize_text` is deterministic in its input text — two requests
with the same `text` field produce identical `input_ids` and identical
`tokens` (the handler is a pure function of the text given the loaded
tokenizer). -/
theorem tokenize_deterministic (tokenizer : Option (String → Except Unit TokRaw))
    (i1 i2 : TextInput) (h : i1.text = i2.text) :
    (tokenize_text tokenizer i1).input_ids = (tokenize_text tokenizer i2).input_ids ∧
      (tokenize_text tokenizer i1).tokens = (tokenize_text tokenizer i2).tokens := by
  cases i1
  cases i2
  cases h
  exact ⟨rfl, rfl⟩

/-- Witness for C6 at a concrete tokenizer and text. -/
theorem tokenize_deterministic_witness :
    (TextInput.mk "hi").text = (TextInput.mk "hi").text ∧
      ((tokenize_text (some demoTok) ⟨"hi"⟩).input_ids =
          (tokenize_text (some demoTok) ⟨"hi"⟩).input_ids ∧
        (tokenize_text (some demoTok) ⟨"hi"⟩).tokens =
          (tokenize_text (some demoTok) ⟨"hi"⟩).tokens) :=
  ⟨rfl, tokenize_deterministic (some demoTok) ⟨"hi"⟩ ⟨"hi"⟩ rfl⟩

/-- C7: the temperature actually used for logit scaling in
`next_token_prediction` is `max(input.temperature, 1e-6)`, which is at
least `1e-6` and strictly positive for every requested temperature,
including zero and negative values — the division is never by zero. -/
theorem next_token_temperature_floor (input : NextTokenInput) :
    (1 : ℚ) / 1000000 ≤ effectiveTemperature input.temperature ∧
      0 < effectiveTemperature input.temperature := by
  refine ⟨le_max_right _ _, lt_of_lt_of_le ?_ (le_max_right _ _)⟩
  norm_num

/-- C10: on a successful `/tokenize` response (with the library guarantee
that `convert_ids_to_tokens` is length-preserving), the deduplicated
`tokens` list is never longer than `input_ids`, and it is strictly shorter
whenever the cleaned raw tokens contain a repeat. -/
theorem tokenize_tokens_length_le_ids
    (f : String → Except Unit TokRaw) (input : TextInput) (r : TokRaw)
    (hok : f input.text = .ok r)
    (hlen : r.raw_tokens.length = r.input_ids.length) :
    (tokenize_text (some f) input).tokens.length ≤
        (tokenize_text (some f) input).input_ids.length ∧
      (¬ (r.raw_tokens.map cleanToken).Nodup →
        (tokenize_text (some f) input).tokens.length <
          (tokenize_text (some f) input).input_ids.length) := by
  have hres : tokenize_text (some f) input = mkTokenizeSuccess r := by
    simp [tokenize_text, hok]
  rw [hres]
  have htk : (mkTokenizeSuccess r).tokens = dedupFirst (r.raw_tokens.map cleanToken) := by
    simp [mkTokenizeSuccess, dedupClean_eq_dedupFirst]
  have hids : (mkTokenizeSuccess r).input_ids = r.input_ids := rfl
  rw [htk, hids]
  have hmaplen : (r.raw_tokens.map cleanToken).length = r.input_ids.length := by
    rw [List.length_map, hlen]
  constructor
  · exact hmaplen ▸ dedupFirst_length_le _
  · intro hnd
    exact hmaplen ▸ dedupFirst_length_lt _ hnd

/-- Witness for C10: the demo tokenizer repeats the cleaned token `"a"`,
and its three ids against two deduplicated tokens give a strict drop. -/
theorem tokenize_tokens_length_le_ids_witness :
    (demoTok "x" = .ok ⟨[64, 275, 64], ["a", "Ġb", "a"], [[1, 1, 1]]⟩) ∧
      ((["a", "Ġb", "a"] : List String).length = ([64, 275, 64] : List Int).length) ∧
      ((tokenize_text (some demoTok) ⟨"x"⟩).tokens.length ≤
          (tokenize_text (some demoTok) ⟨"x"⟩).input_ids.length ∧
        (¬ (List.map cleanToken ["a", "Ġb", "a"]).Nodup →
          (tokenize_text (some demoTok) ⟨"x"⟩).tokens.length <
            (tokenize_text (some demoTok) ⟨"x"⟩).input_ids.length)) :=
  ⟨rfl, rfl, tokenize_tokens_length_le_ids demoTok ⟨"x"⟩ _ rfl rfl⟩

theorem map_swapG_eq : ∀ (l m : List Char), ' ' ∉ m → 'Ġ' ∉ m →
    l.map (fun c => if c = 'Ġ' then ' ' else c) = m → l = m := by
  intro l
  induction l with
  | nil =>
    intro m _ _ h
    exact h
  | cons c cs ih =>
    intro m hsp hg h
    match m with
    | [] => simp at h
    | d :: ds =>
      simp only [List.map_cons, List.cons.injEq] at h
      obtain ⟨h1, h2⟩ := h
      have hc : c ≠ 'Ġ' := by
        intro hc
        rw [if_pos hc] at h1
        exact hsp (h1 ▸ List.mem_cons_self _ _)
      rw [if_neg hc] at h1
      have hds := ih ds (fun hm => hsp (List.mem_cons_of_mem _ hm))
        (fun hm => hg (List.mem_cons_of_mem _ hm)) h2
      rw [h1, hds]

theorem replaceG_eq_eot {t : String} (h : replaceG t = eotToken) : t = eotToken := by
  have hd : t.data.map (fun c => if c = 'Ġ' then ' ' else c) = eotToken.data :=
    congrArg String.data h
  have hsp : ' ' ∉ eotToken.data := by decide
  have hg : 'Ġ' ∉ eotToken.data := by decide
  have := map_swapG_eq t.data eotToken.data hsp hg hd
  cases t
  exact congrArg String.mk this

theorem stripEot_no_eot_same_length : ∀ (ts : List String) (vs : List (List ℚ)),
    eotToken ∉ (stripEot ts vs).1 ∧ (stripEot ts vs).1.length = (stripEot ts vs).2.length := by
  intro ts
  induction ts with
  | nil =>
    intro vs
    simp [stripEot]
  | cons t ts ih =>
    intro vs
    match vs with
    | [] => simp [stripEot]
    | v :: vs =>
      simp only [stripEot]
      by_cases ht : t ∈ [eotToken]
      · have ht2 : t = eotToken := by simpa using ht
        simpa [ht2] using ih vs
      · simp only [if_neg ht]
        refine ⟨?_, by simp [(ih vs).2]⟩
        intro hmem
        rcases List.mem_cons.mp hmem with h | h
        · refine ht ?_
          rw [replaceG_eq_eot h.symm]
          exact List.mem_cons_self _ _
        · exact (ih vs).1 h

/-- C9: every `/residual_stream` response strips the end-of-text sentinel —
the returned `tokens` never contain `"<|endoftext|>"` — and `layer_values`
keeps exactly one norms row per retained token (the sentinel's row is
dropped with it), so the two lists always have equal length. -/
theorem residual_stream_strips_eot
    (env : Option (String → Except Unit ResidRaw)) (input : TextInput) :
    eotToken ∉ (get_residual_stream env input).tokens ∧
      (get_residual_stream env input).tokens.length =
        (get_residual_stream env input).layer_values.length := by
  match env with
  | none => simp [get_residual_stream]
  | some f =>
    match hb : f input.text with
    | .error _ => simp [get_residual_stream, hb]
    | .ok r =>
      have hres : get_residual_stream (some f) input = mkResidualSuccess r := by
        simp [get_residual_stream, hb]
      rw [hres]
      exact stripEot_no_eot_same_length r.tokens r.layer_values

/-- A concrete next-token pipeline oracle: top-2 tokens with probabilities,
sampling index 1. -/
def demoNT : String → ℚ → Except Unit NTRaw :=
  fun _ _ => .ok ⟨["Ġthe", "Ġa"], [7/10, 3/10], [262, 257], 1⟩

/-- C3: on a successful `/next_token` response (given the `torch.topk` /
`softmax` / `multinomial` contracts that the three top-k lists have equal
length and the sampled index is in range), the returned `probability` is
exactly the `prob` field of the entry of the returned top-10 `probs` list
at the sampled index, and the returned `token` is that entry's (stripped)
token string. -/
theorem next_token_prob_matches_selected_entry
    (f : String → ℚ → Except Unit NTRaw) (input : NextTokenInput) (r : NTRaw)
    (hok : f input.text (effectiveTemperature input.temperature) = .ok r)
    (hpl : r.top_probs.length = r.top_tokens.length)
    (hil : r.top_indices.length = r.top_tokens.length)
    (hidx : r.sampled_idx < r.top_tokens.length) :
    ∃ entry : ProbEntry,
      (next_token_prediction (some f) input).probs[r.sampled_idx]? = some entry ∧
        (next_token_prediction (some f) input).probability = entry.prob ∧
        (next_token_prediction (some f) input).token = entry.token := by
  obtain ⟨tk, htk⟩ : ∃ a, r.top_tokens[r.sampled_idx]? = some a :=
    ⟨_, List.getElem?_eq_getElem hidx⟩
  have hidxp : r.sampled_idx < r.top_probs.length := by rw [hpl]; exact hidx
  have hidxi : r.sampled_idx < r.top_indices.length := by rw [hil]; exact hidx
  obtain ⟨tp, htp⟩ : ∃ a, r.top_probs[r.sampled_idx]? = some a :=
    ⟨_, List.getElem?_eq_getElem hidxp⟩
  obtain ⟨ti, hti⟩ : ∃ a, r.top_indices[r.sampled_idx]? = some a :=
    ⟨_, List.getElem?_eq_getElem hidxi⟩
  have hres : next_token_prediction (some f) input =
      ⟨tk.trim, ti, tp, (r.top_tokens.zip r.top_probs).map (fun p => ⟨p.1.trim, p.2⟩)⟩ := by
    simp [next_token_prediction, hok, mkNextTokenSuccess, htk, htp, hti]
  refine ⟨⟨tk.trim, tp⟩, ?_, by rw [hres], by rw [hres]⟩
  rw [hres]
  have hz : (r.top_tokens.zip r.top_probs)[r.sampled_idx]? = some (tk, tp) :=
    List.getElem?_zip_eq_some.mpr ⟨htk, htp⟩
  rw [List.getElem?_map, hz]
  rfl

/-- Witness for C3 at the concrete top-2 pipeline with sampled index 1. -/
theorem next_token_prob_matches_selected_entry_witness :
    (demoNT "t" (effectiveTemperature 1) = .ok ⟨["Ġthe", "Ġa"], [7/10, 3/10], [262, 257], 1⟩) ∧
      (([(7:ℚ)/10, 3/10] : List ℚ).length = (["Ġthe", "Ġa"] : List String).length) ∧
      (([262, 257] : List Int).length = (["Ġthe", "Ġa"] : List String).length) ∧
      (1 < (["Ġthe", "Ġa"] : List String).length) ∧
      (∃ entry : ProbEntry,
        (next_token_prediction (some demoNT) ⟨"t", 1⟩).probs[(1 : Nat)]? = some entry ∧
          (next_token_prediction (some demoNT) ⟨"t", 1⟩).probability = entry.prob ∧
          (next_token_prediction (some demoNT) ⟨"t", 1⟩).token = entry.token) :=
  ⟨rfl, rfl, rfl, by decide,
    next_token_prob_matches_selected_entry demoNT ⟨"t", 1⟩ _ rfl rfl rfl (by decide)⟩

/-- A hidden-states oracle that always raises. -/
def throwHidden : String → Except Unit (List (List (List ℚ))) := fun _ => .error ()

/-- A concrete hidden-states oracle: one layer with one token of dimension 2. -/
def demoHidden : String → Except Unit (List (List (List ℚ))) :=
  fun _ => .ok [[[1, 2]]]

/-- C1 counterexample: with the model not loaded and a requested layer of
`-5`, `/embeddings` reports layer `-5`, which is below `0` and hence
outside `[0, num_hidden_layers]` — the reported layer is NOT always
clamped. -/
theorem embeddings_layer_unclamped_counterexample :
    (get_embeddings none ⟨"x", -5⟩).layer = -5 ∧
      ¬ (0 ≤ (get_embeddings none ⟨"x", -5⟩).layer) := by
  decide

/-- C1 amended: `/embeddings` clamps the reported layer into
`[0, len(hidden_states) - 1]` (that is, `[0, num_hidden_layers]`) only on
the success path with non-empty hidden states; on the not-loaded path and
on the exception path the handler echoes the requested layer unchanged. -/
theorem embeddings_layer_clamped_amended :
    (∀ input : EmbeddingInput, (get_embeddings none input).layer = input.layer) ∧
      (∀ (f : String → Except Unit (List (List (List ℚ)))) (input : EmbeddingInput),
        f input.text = .error () →
        (get_embeddings (some f) input).layer = input.layer) ∧
      (∀ (f : String → Except Unit (List (List (List ℚ)))) (input : EmbeddingInput)
        (hs : List (List (List ℚ))), f input.text = .ok hs → hs ≠ [] →
        0 ≤ (get_embeddings (some f) input).layer ∧
          (get_embeddings (some f) input).layer ≤ (hs.length : Int) - 1) := by
  refine ⟨fun input => rfl, fun f input h => by simp [get_embeddings, h], ?_⟩
  intro f input hs hok hne
  have hres : get_embeddings (some f) input = mkEmbeddingsResult input hs := by
    simp [get_embeddings, hok]
  rw [hres]
  have hn : 0 < hs.length := List.length_pos.mpr hne
  have h0 : (0 : Int) ≤ clampLayer input.layer hs.length := le_max_left 0 _
  have h1 : clampLayer input.layer hs.length ≤ (hs.length : Int) - 1 := by
    rw [clampLayer]
    rcases le_total input.layer ((hs.length : Int) - 1) with h | h
    · rw [min_eq_left h]
      exact max_le (by omega) h
    · rw [min_eq_right h]
      exact max_le (by omega) le_rfl
  have hlt : (clampLayer input.layer hs.length).toNat < hs.length := by omega
  obtain ⟨le, hle⟩ : ∃ a, hs[(clampLayer input.layer hs.length).toNat]? = some a :=
    ⟨_, List.getElem?_eq_getElem hlt⟩
  have hval : mkEmbeddingsResult input hs =
      ⟨le, clampLayer input.layer hs.length, some (le.length, (le.headD []).length)⟩ := by
    rw [mkEmbeddingsResult, if_neg hne]
    simp only [hle]
  rw [hval]
  exact ⟨h0, h1⟩

/-- Witness for C1 amended: the not-loaded path echoes layer 3, the
exception path echoes layer 4, and on a successful pass with one hidden
layer the reported layer is clamped into `[0, 0]`. -/
theorem embeddings_layer_clamped_amended_witness :
    ((get_embeddings none ⟨"w", 3⟩).layer = (3 : Int)) ∧
      (throwHidden "w" = .error ()) ∧
      ((get_embeddings (some throwHidden) ⟨"w", 4⟩).layer = (4 : Int)) ∧
      (demoHidden "w" = .ok [[[1, 2]]]) ∧
      (([[[(1 : ℚ), 2]]] : List (List (List ℚ))) ≠ []) ∧
      (0 ≤ (get_embeddings (some demoHidden) ⟨"w", 9⟩).layer ∧
        (get_embeddings (some demoHidden) ⟨"w", 9⟩).layer ≤
          ((([[[(1 : ℚ), 2]]] : List (List (List ℚ))).length : Int) - 1)) :=
  ⟨embeddings_layer_clamped_amended.1 ⟨"w", 3⟩, rfl,
    embeddings_layer_clamped_amended.2.1 throwHidden ⟨"w", 4⟩ rfl, rfl,
    by decide,
    embeddings_layer_clamped_amended.2.2 demoHidden ⟨"w", 9⟩ [[[1, 2]]] rfl (by decide)⟩

/-- C2 counterexample: the exception payload of `/embeddings` depends on
the input — with the same always-raising body, requested layers 1 and 2
produce different responses (each echoes its own layer), so not every
handler's exception payload is a fixed input-independent value. -/
theorem exception_payload_depends_on_input_counterexample :
    (get_embeddings (some throwHidden) ⟨"x", 1⟩).layer = 1 ∧
      (get_embeddings (some throwHidden) ⟨"x", 2⟩).layer = 2 ∧
      get_embeddings (some throwHidden) ⟨"x", 1⟩ ≠
        get_embeddings (some throwHidden) ⟨"x", 2⟩ := by
  decide

/-- A next-token oracle that always raises. -/
def throwNT : String → ℚ → Except Unit NTRaw := fun _ _ => .error ()

/-- A residual-stream oracle that always raises. -/
def throwResid : String → Except Unit ResidRaw := fun _ => .error ()

/-- An attention oracle that always raises. -/
def throwAtt : String → Except Unit (List (List (List (List ℚ)))) := fun _ => .error ()

/-- C2 amended: when a handler's body raises, every endpoint converts the
exception into its empty-shaped HTTP-200 payload. For `/tokenize`,
`/next_token`, `/residual_stream`, `/attention` and `/embeddings_all` that
payload is a fixed constant independent of the input; `/embeddings` alone
echoes the requested layer in its otherwise-empty exception payload, so
its exception response does depend on the input. -/
theorem handlers_exception_default_amended :
    (∀ (f : String → Except Unit TokRaw) (i : TextInput),
      f i.text = .error () → tokenize_text (some f) i = ⟨[], [], []⟩) ∧
      (∀ (f : String → ℚ → Except Unit NTRaw) (i : NextTokenInput),
        f i.text (effectiveTemperature i.temperature) = .error () →
        next_token_prediction (some f) i = defaultNextToken) ∧
      (∀ (f : String → Except Unit ResidRaw) (i : TextInput),
        f i.text = .error () → get_residual_stream (some f) i = ⟨[], [], 0⟩) ∧
      (∀ (f : String → Except Unit (List (List (List (List ℚ))))) (i : TextInput),
        f i.text = .error () → get_attention (some f) i = ⟨0, []⟩) ∧
      (∀ (f : String → Except Unit (List (List (List ℚ)))) (i : EmbeddingInput),
        f i.text = .error () → get_embeddings (some f) i = ⟨[], i.layer, none⟩) ∧
      (∀ (f : String → Except Unit (List (List (List ℚ))))
        (pca : List (List ℚ) → Except Unit (List (List ℚ))) (i : TextInput),
        f i.text = .error () → get_all_embeddings (some f) pca i = ⟨0, [], []⟩) :=
  ⟨fun f i h => by simp [tokenize_text, h],
    fun f i h => by simp [next_token_prediction, h],
    fun f i h => by simp [get_residual_stream, h],
    fun f i h => by simp [get_attention, h],
    fun f i h => by simp [get_embeddings, h],
    fun f pca i h => by simp [get_all_embeddings, h]⟩

/-- Witness for C2 amended at concrete always-raising oracles. -/
theorem handlers_exception_default_amended_witness :
    (throwTok "a" = .error ()) ∧ (tokenize_text (some throwTok) ⟨"a"⟩ = ⟨[], [], []⟩) ∧
      (next_token_prediction (some throwNT) ⟨"a", 2⟩ = defaultNextToken) ∧
      (get_residual_stream (some throwResid) ⟨"a"⟩ = ⟨[], [], 0⟩) ∧
      (get_attention (some throwAtt) ⟨"a"⟩ = ⟨0, []⟩) ∧
      (get_embeddings (some throwHidden) ⟨"a", 7⟩ = ⟨[], 7, none⟩) ∧
      (get_all_embeddings (some throwHidden) (fun m => .ok m) ⟨"a"⟩ = ⟨0, [], []⟩) :=
  ⟨rfl, handlers_exception_default_amended.1 throwTok ⟨"a"⟩ rfl,
    handlers_exception_default_amended.2.1 throwNT ⟨"a", 2⟩ rfl,
    handlers_exception_default_amended.2.2.1 throwResid ⟨"a"⟩ rfl,
    handlers_exception_default_amended.2.2.2.1 throwAtt ⟨"a"⟩ rfl,
    handlers_exception_default_amended.2.2.2.2.1 throwHidden ⟨"a", 7⟩ rfl,
    handlers_exception_default_amended.2.2.2.2.2 throwHidden (fun m => .ok m) ⟨"a"⟩ rfl⟩

/-- A concrete PCA stand-in satisfying sklearn's shape contract for
`n_components=3`: one 3-vector per input row. -/
def demoPca : List (List ℚ) → Except Unit (List (List ℚ)) :=
  fun m => .ok (m.map (fun _ => [0, 0, 0]))

/-- A concrete two-token, three-dimensional single-layer hidden-states
oracle for `/embeddings_all`. -/
def demoHidden3 : String → Except Unit (List (List (List ℚ))) :=
  fun _ => .ok [[[1, 2, 3], [4, 5, 6]]]

/-- C5: on a successful `/embeddings_all` pass, under sklearn's
`fit_transform` shape contract (`n_components=3` yields one 3-vector per
input row), a non-empty `embeddings3d` has exactly 3 components per row
and as many rows as the final hidden-state layer has tokens; moreover the
PCA step is skipped — `embeddings3d = []` — when the hidden dimension is
below 3 or when the PCA call raises. -/
theorem embeddings_all_pca_shape
    (f : String → Except Unit (List (List (List ℚ))))
    (pca : List (List ℚ) → Except Unit (List (List ℚ)))
    (input : TextInput) (hs : List (List (List ℚ)))
    (hok : f input.text = .ok hs)
    (hpca : ∀ m r, pca m = .ok r → r.length = m.length ∧ ∀ row ∈ r, row.length = 3) :
    ((get_all_embeddings (some f) pca input).embeddings3d ≠ [] →
      ∃ last, hs.getLast? = some last ∧
        (get_all_embeddings (some f) pca input).embeddings3d.length = last.length ∧
        ∀ row ∈ (get_all_embeddings (some f) pca input).embeddings3d, row.length = 3) ∧
      (∀ last d, hs.getLast? = some last → shape1 last = .ok d → d < 3 →
        (get_all_embeddings (some f) pca input).embeddings3d = []) ∧
      (∀ last, hs.getLast? = some last → pca last = .error () →
        (get_all_embeddings (some f) pca input).embeddings3d = []) := by
  have hres : (get_all_embeddings (some f) pca input).embeddings3d = pcaBlock pca hs := by
    simp [get_all_embeddings, hok, mkAllEmbeddingsSuccess]
  rw [hres]
  match hlast : hs.getLast? with
  | none =>
    have hblock : pcaBlock pca hs = [] := by simp [pcaBlock, hlast]
    refine ⟨fun hne => absurd hblock hne, ?_, ?_⟩
    · intro last d h _ _
      exact absurd h (by simp)
    · intro last h _
      exact absurd h (by simp)
  | some last =>
    have hinj : ∀ last2, some last = some last2 → last2 = last := by
      intro last2 h2
      exact (Option.some_inj.mp h2).symm
    by_cases hlen : last.length > 0
    · match hsh : shape1 last with
      | .error u =>
        have hblock : pcaBlock pca hs = [] := by
          simp [pcaBlock, hlast, hlen, hsh]
        refine ⟨fun hne => absurd hblock hne, fun _ _ _ _ _ => hblock,
          fun _ _ _ => hblock⟩
      | .ok d =>
        by_cases hd : d ≥ 3
        · match hp : pca last with
          | .error u =>
            have hblock : pcaBlock pca hs = [] := by
              simp [pcaBlock, hlast, hlen, hsh, hd, hp]
            refine ⟨fun hne => absurd hblock hne, fun _ _ _ _ _ => hblock,
              fun _ _ _ => hblock⟩
          | .ok m =>
            have hblock : pcaBlock pca hs = m := by
              simp [pcaBlock, hlast, hlen, hsh, hd, hp]
            obtain ⟨hml, hmr⟩ := hpca last m hp
            refine ⟨fun _ => ⟨last, rfl, by rw [hblock]; exact hml,
              by rw [hblock]; exact hmr⟩, ?_, ?_⟩
            · intro last2 d2 h2 hsh2 hd2
              rw [hinj last2 h2] at hsh2
              rw [hsh] at hsh2
              have : d2 = d := (Except.ok.injEq _ _ ▸ hsh2).symm
              omega
            · intro last2 h2 hp2
              rw [hinj last2 h2] at hp2
              rw [hp] at hp2
              exact absurd hp2 (by simp)
        · have hblock : pcaBlock pca hs = [] := by
            simp [pcaBlock, hlast, hlen, hsh, hd]
          refine ⟨fun hne => absurd hblock hne, fun _ _ _ _ _ => hblock,
            fun _ _ _ => hblock⟩
    · have hblock : pcaBlock pca hs = [] := by
        simp [pcaBlock, hlast, hlen]
      refine ⟨fun hne => absurd hblock hne, fun _ _ _ _ _ => hblock,
        fun _ _ _ => hblock⟩

/-- Witness for C5 at the concrete single-layer hidden states and the
shape-respecting PCA stand-in. -/
theorem embeddings_all_pca_shape_witness :
    (demoHidden3 "t" = .ok [[[1, 2, 3], [4, 5, 6]]]) ∧
      (∀ m r, demoPca m = .ok r → r.length = m.length ∧ ∀ row ∈ r, row.length = 3) ∧
      (((get_all_embeddings (some demoHidden3) demoPca ⟨"t"⟩).embeddings3d ≠ [] →
        ∃ last, ([[[(1 : ℚ), 2, 3], [4, 5, 6]]] : List (List (List ℚ))).getLast? = some last ∧
          (get_all_embeddings (some demoHidden3) demoPca ⟨"t"⟩).embeddings3d.length = last.length ∧
          ∀ row ∈ (get_all_embeddings (some demoHidden3) demoPca ⟨"t"⟩).embeddings3d,
            row.length = 3) ∧
        (∀ last d, ([[[(1 : ℚ), 2, 3], [4, 5, 6]]] : List (List (List ℚ))).getLast? = some last →
          shape1 last = .ok d → d < 3 →
          (get_all_embeddings (some demoHidden3) demoPca ⟨"t"⟩).embeddings3d = []) ∧
        (∀ last, ([[[(1 : ℚ), 2, 3], [4, 5, 6]]] : List (List (List ℚ))).getLast? = some last →
          demoPca last = .error () →
          (get_all_embeddings (some demoHidden3) demoPca ⟨"t"⟩).embeddings3d = [])) :=
  ⟨rfl,
    fun m r h => by
      have hr : r = m.map (fun _ => [0, 0, 0]) := (Except.ok.injEq _ _ ▸ h).symm
      subst hr
      refine ⟨List.length_map _ _, ?_⟩
      intro row hrow
      rcases List.mem_map.mp hrow with ⟨a, _, ha⟩
      rw [← ha]
      rfl,
    embeddings_all_pca_shape demoHidden3 demoPca ⟨"t"⟩ [[[1, 2, 3], [4, 5, 6]]] rfl
      (fun m r h => by
        have hr : r = m.map (fun _ => [0, 0, 0]) := (Except.ok.injEq _ _ ▸ h).symm
        subst hr
        refine ⟨List.length_map _ _, ?_⟩
        intro row hrow
        rcases List.mem_map.mp hrow with ⟨a, _, ha⟩
        rw [← ha]
        rfl)⟩

/-- C8: no endpoint produces an unhandled failure on the empty string —
for every state of the loaded models and every outcome of the library
calls (including raised exceptions), each handler applied to `text = ""`
returns a value that is either its empty-shaped default response or the
success-path response built from the library results; no exception
escapes any handler. -/
theorem empty_text_no_unhandled_failure
    (tok : Option (String → Except Unit TokRaw))
    (nt : Option (String → ℚ → Except Unit NTRaw))
    (res : Option (String → Except Unit ResidRaw))
    (att : Option (String → Except Unit (List (List (List (List ℚ))))))
    (emb embAll : Option (String → Except Unit (List (List (List ℚ)))))
    (pca : List (List ℚ) → Except Unit (List (List ℚ)))
    (layer : Int) (temp : ℚ) :
    (tokenize_text tok ⟨""⟩ = ⟨[], [], []⟩ ∨
      ∃ r, tokenize_text tok ⟨""⟩ = mkTokenizeSuccess r) ∧
      (next_token_prediction nt ⟨"", temp⟩ = defaultNextToken ∨
        ∃ r resp, mkNextTokenSuccess r = some resp ∧
          next_token_prediction nt ⟨"", temp⟩ = resp) ∧
      (get_residual_stream res ⟨""⟩ = ⟨[], [], 0⟩ ∨
        ∃ r, get_residual_stream res ⟨""⟩ = mkResidualSuccess r) ∧
      (get_attention att ⟨""⟩ = ⟨0, []⟩ ∨
        ∃ a, get_attention att ⟨""⟩ = mkAttentionSuccess a) ∧
      (get_embeddings emb ⟨"", layer⟩ = ⟨[], layer, none⟩ ∨
        ∃ hs, get_embeddings emb ⟨"", layer⟩ = mkEmbeddingsResult ⟨"", layer⟩ hs) ∧
      (get_all_embeddings embAll pca ⟨""⟩ = ⟨0, [], []⟩ ∨
        ∃ hs, get_all_embeddings embAll pca ⟨""⟩ = mkAllEmbeddingsSuccess pca hs) := by
  refine ⟨?_, ?_, ?_, ?_, ?_, ?_⟩
  · match tok with
    | none => exact Or.inl rfl
    | some f =>
      match h : f "" with
      | .error _ => exact Or.inl (by simp [tokenize_text, h])
      | .ok r => exact Or.inr ⟨r, by simp [tokenize_text, h]⟩
  · match nt with
    | none => exact Or.inl rfl
    | some f =>
      match h : f "" (effectiveTemperature temp) with
      | .error _ => exact Or.inl (by simp [next_token_prediction, h])
      | .ok r =>
        match hm : mkNextTokenSuccess r with
        | none =>
          exact Or.inl (by simp [next_token_prediction, h, hm])
        | some resp =>
          exact Or.inr ⟨r, resp, hm, by simp [next_token_prediction, h, hm]⟩
  · match res with
    | none => exact Or.inl rfl
    | some f =>
      match h : f "" with
      | .error _ => exact Or.inl (by simp [get_residual_stream, h])
      | .ok r => exact Or.inr ⟨r, by simp [get_residual_stream, h]⟩
  · match att with
    | none => exact Or.inl rfl
    | some f =>
      match h : f "" with
      | .error _ => exact Or.inl (by simp [get_attention, h])
      | .ok a => exact Or.inr ⟨a, by simp [get_attention, h]⟩
  · match emb with
    | none => exact Or.inl rfl
    | some f =>
      match h : f "" with
      | .error _ => exact Or.inl (by simp [get_embeddings, h])
      | .ok hs => exact Or.inr ⟨hs, by simp [get_embeddings, h]⟩
  · match embAll with
    | none => exact Or.inl rfl
    | some f =>
      match h : f "" with
      | .error _ => exact Or.inl (by simp [get_all_embeddings, h])
      | .ok hs => exact Or.inr ⟨hs, by simp [get_all_embeddings, h]⟩
